import Mathlib

/-!
Shallow embedding of `sddl.py` (pysddl), a module that parses Windows SDDL
security-descriptor strings.

Python-specific behaviours are modelled explicitly:
* `dict` literals with a duplicate key keep the last binding, and item
  assignment overwrites, so tables are association lists read with a
  last-binding-wins lookup (`dget`).
* `d[k]` on a missing key raises `KeyError`; `k in d` is a pure membership
  test; `if d[k]:` additionally tests truthiness of the value.
* Exceptions abort the surrounding constructor call; they are modelled with
  `Except PyErr`.
* The module-global `ACCESS` dictionary is mutated in place by
  `SDDL.__init__` when `target == 'service'` (`self.ACCESS = ACCESS` merely
  aliases the global).  The parse entry point therefore threads the global
  table: it takes the current value of `ACCESS` and returns its value after
  the call.
* The external `wmi`-based `TranslateSid` collaborator is a parameter
  `resolver : String → Option String` (`None` models both "not found" and
  a falsy result).
* The regular expressions of the module (`re_owner`, `re_group`, `re_acl`,
  `re_const`, `re_perms`, `re_non_acl`, `re_type`) are implemented as
  character-list functions with Python `re` semantics (leftmost match,
  greedy-with-backtracking quantifiers, `$` at end of string or just before
  a trailing newline, ASCII `\w`).
-/

namespace Pysddl

/-- A Python dict from string to string, as an association list in insertion
order; `dget` reads it with the last binding winning, as Python assignment
and duplicate literal keys overwrite earlier ones. -/
abbrev Table := List (String × String)

/-- Python `d.get(k)`-style lookup: the binding written last wins. -/
def dget (m : Table) (k : String) : Option String :=
  m.foldl (fun acc p => if p.1 = k then some p.2 else acc) none

/-- `SDDL_TYPE` dictionary of `sddl.py`. -/
def SDDL_TYPE : Table :=
  [("O", "Owner"), ("G", "Group"), ("D", "DACL"), ("S", "SACL")]

/-- `ACCESS` dictionary of `sddl.py`, in source order.  The key `FA` occurs
twice in the Python literal (`FAILED_ACCESS` then `FILE_ALL_ACCESS`); the
later binding wins under `dget`, exactly as in a Python dict literal. -/
def ACCESS : Table :=
  [("A", "ACCESS_ALLOWED"),
   ("D", "ACCESS_DENIED"),
   ("OA", "ACCESS_ALLOWED_OBJECT"),
   ("OD", "ACCESS_DENIED_OBJECT"),
   ("AU", "SYSTEM_AUDIT"),
   ("AL", "SYSTEM_ALARM"),
   ("OU", "SYSTEM_AUDIT_OBJECT"),
   ("OL", "SYSTEM_ALARM_OBJECT"),
   ("CI", "CONTAINER_INHERIT"),
   ("OI", "OBJECT_INHERIT"),
   ("NP", "NO_PROPAGATE_INHERIT"),
   ("IO", "INHERIT_ONLY"),
   ("ID", "INHERITED"),
   ("SA", "SUCCESSFUL_ACCESS"),
   ("FA", "FAILED_ACCESS"),
   ("GA", "GENERIC_ALL"),
   ("GR", "GENERIC_READ"),
   ("GW", "GENERIC_WRITE"),
   ("GX", "GENERIC_EXECUTE"),
   ("RC", "READ_CONTROL"),
   ("SD", "DELETE"),
   ("WD", "WRITE_DAC"),
   ("WO", "WRITE_OWNER"),
   ("RP", "DS_READ_PROP"),
   ("WP", "DS_WRITE_PROP"),
   ("CC", "DS_CREATE_CHILD"),
   ("DC", "DS_DELETE_CHILD"),
   ("LC", "DS_LIST"),
   ("SW", "DS_SELF"),
   ("LO", "DS_LIST_OBJECT"),
   ("DT", "DS_DELETE_TREE"),
   ("FA", "FILE_ALL_ACCESS"),
   ("FR", "FILE_GENERIC_READ"),
   ("FW", "FILE_GENERIC_WRITE"),
   ("FX", "FILE_GENERIC_EXECUTE"),
   ("KA", "KEY_ALL_ACCESS"),
   ("KR", "KEY_READ"),
   ("KW", "KEY_WRITE"),
   ("KE", "KEY_EXECUTE")]

/-- `TRUSTEE` dictionary of `sddl.py`. -/
def TRUSTEE : Table :=
  [("AO", "Account Operators"),
   ("RU", "Pre-Win2k Compatibility Access"),
   ("AN", "Anonymous"),
   ("AU", "Authenticated Users"),
   ("BA", "Administrators"),
   ("BG", "Guests"),
   ("BO", "Backup Operators"),
   ("BU", "Users"),
   ("CA", "Certificate Publishers"),
   ("CD", "Certificate Services DCOM Access"),
   ("CG", "Creator Group"),
   ("CO", "Creator Owner"),
   ("DA", "Domain Admins"),
   ("DC", "Domain Computers"),
   ("DD", "Domain Controllers"),
   ("DG", "Domain Guests"),
   ("DU", "Domain Users"),
   ("EA", "Enterprise Admins"),
   ("ED", "Enterprise Domain Controllers"),
   ("RO", "Enterprise Read-Only Domain Controllers"),
   ("WD", "Everyone"),
   ("PA", "Group Policy Admins"),
   ("IU", "Interactive Users"),
   ("LA", "Local Administrator"),
   ("LG", "Local Guest"),
   ("LS", "Local Service"),
   ("SY", "Local System"),
   ("NU", "Network"),
   ("LW", "Low Integrity"),
   ("ME", "Medium Integrity"),
   ("HI", "High Integrity"),
   ("SI", "System Integrity"),
   ("NO", "Network Configuration Operators"),
   ("NS", "Network Service"),
   ("PO", "Printer Operators"),
   ("PS", "Self"),
   ("PU", "Power Users"),
   ("RS", "RAS Servers"),
   ("RD", "Remote Desktop Users"),
   ("RE", "Replicator"),
   ("RC", "Restricted Code"),
   ("SA", "Schema Administrators"),
   ("SO", "Server Operators"),
   ("SU", "Service")]

/-- The thirteen item assignments performed on `self.ACCESS` (the aliased
module-global `ACCESS`) when `target == 'service'`, in source order. -/
def svcPairs : Table :=
  [("CC", "Query Configuration"),
   ("DC", "Change Configuration"),
   ("LC", "Query State"),
   ("SW", "Enumerate Dependencies"),
   ("RP", "Start"),
   ("WP", "Stop"),
   ("DT", "Pause"),
   ("LO", "Interrogate"),
   ("CR", "User Defined"),
   ("SD", "Delete"),
   ("RC", "Read the Security Descriptor"),
   ("WD", "Change Permissions"),
   ("WO", "Change Owner")]

/-- Effect of the thirteen service-target assignments on the table: each
assignment appends a binding that shadows any earlier one under `dget`. -/
def serviceOverride (access : Table) : Table := access ++ svcPairs

/-- The Python exceptions the module can raise during parsing. -/
inductive PyErr where
  | keyError : String → PyErr
  | invalidAceString : PyErr
  | invalidSddlString : PyErr
  | invalidSddlType : PyErr
  | attributeError : PyErr
deriving DecidableEq

/-- Result object of `ACE.__init__`. -/
structure ACERes where
  ace_string : String
  ace_type : String
  flags : List String
  perms : List String
  object_type : String
  inherited_type : String
  trustee : String
deriving DecidableEq

/-- Result object of `SDDL.__init__` (the fields it assigns besides the
retained raw string and target). -/
structure SDDLRes where
  sddl_type : Option String
  acl : List ACERes
  owner_sid : Option String
  owner_account : Option String
  group_sid : Option String
  group_account : Option String
deriving DecidableEq

/-- The field values `SDDL.__init__` starts from before examining the three
segment matches. -/
def emptyRes : SDDLRes := ⟨none, [], none, none, none, none⟩

/-- Resolver that never finds a name, modelling `TranslateSid` returning
`None`. -/
def noResolver : String → Option String := fun _ => none

/-! ### Regular expressions of the module, as character-list functions -/

/-- Python `str.split(';')`: every `;` separates fields, empty fields kept,
and the empty string splits to `[""]`. -/
def splitSemi : List Char → List (List Char)
  | [] => [[]]
  | c :: rest =>
    if c = ';' then [] :: splitSemi rest
    else
      match splitSemi rest with
      | h :: t => (c :: h) :: t
      | [] => [[c]]

/-- ASCII `\w` of Python 2 `re` without `re.UNICODE`. -/
def isWordChar (c : Char) : Bool := c.isAlpha || c.isDigit || c = '_'

/-- `re.findall(re_const, s)` with `re_const = (\w\w)`: scan left to right,
emitting every non-overlapping two-word-character pair; a position that
cannot start a pair is skipped. -/
def findConsts : List Char → List String
  | a :: b :: rest =>
    if isWordChar a && isWordChar b then String.mk [a, b] :: findConsts rest
    else findConsts (b :: rest)
  | _ => []

/-- `re.findall(re_perms, s)` with `re_perms = \(([^\(\)]+)\)`: the automaton
state is the body of a tentatively open group.  A `(` always (re)opens a
group — when one is already open the pending match has failed and the later
`(` is where the rescan from the next position first succeeds — and a `)`
closes it, emitting the captured body when it is non-empty (the `+` demands
at least one character). -/
def findPermsAux : Option (List Char) → List Char → List String
  | _, [] => []
  | none, c :: rest =>
    if c = '(' then findPermsAux (some []) rest else findPermsAux none rest
  | some acc, c :: rest =>
    if c = ')' then
      if acc = [] then findPermsAux none rest
      else String.mk acc.reverse :: findPermsAux none rest
    else if c = '(' then findPermsAux (some []) rest
    else findPermsAux (some (c :: acc)) rest

/-- All captures of `re_perms` over the string. -/
def findPerms (cs : List Char) : List String := findPermsAux none cs

/-- The lookahead `(?=[DGS]:)` of `re_owner`. -/
def lookDGS : List Char → Bool
  | d :: c :: _ => (d = 'D' || d = 'G' || d = 'S') && c = ':'
  | _ => false

/-- The lookahead `(?=[DOS]:)` of `re_group`. -/
def lookDOS : List Char → Bool
  | d :: c :: _ => (d = 'D' || d = 'O' || d = 'S') && c = ':'
  | _ => false

/-- Greedy `[^:()]+(?=[DGS]:)`: the longest non-empty run of characters
outside `:()` after which `[DGS]:` follows.  Backtracking from the longest
run is realised by preferring the recursive (longer) match. -/
def ownerBody : List Char → Option (List Char)
  | [] => none
  | c :: rest =>
    if c = ':' ∨ c = '(' ∨ c = ')' then none
    else
      match ownerBody rest with
      | some p => some (c :: p)
      | none => if lookDGS rest then some [c] else none

/-- Greedy `[^:()]+(?=[DOS]:)` for `re_group`. -/
def groupBody : List Char → Option (List Char)
  | [] => none
  | c :: rest =>
    if c = ':' ∨ c = '(' ∨ c = ')' then none
    else
      match groupBody rest with
      | some p => some (c :: p)
      | none => if lookDOS rest then some [c] else none

/-- `re.search(re_owner, s)` with `re_owner = ^O:[^:()]+(?=[DGS]:)`; the
anchor `^` limits the search to the start of the string. -/
def ownerSearch : List Char → Option (List Char)
  | 'O' :: ':' :: rest => (ownerBody rest).map (fun p => 'O' :: ':' :: p)
  | _ => none

/-- `re.search(re_group, s)` with `re_group = G:[^:()]+(?=[DOS]:)`:
leftmost position at which `G:` begins a successful match.  After a failed
attempt the scan resumes one position later; the `:` there cannot begin a
match, so resuming after it is identical. -/
def groupSearch : List Char → Option (List Char)
  | [] => none
  | c :: rest =>
    if c = 'G' ∧ rest.head? = some ':' then
      match groupBody rest.tail with
      | some p => some ('G' :: ':' :: p)
      | none => groupSearch rest
    else groupSearch rest

/-- `.+$` of `re_acl`: at least one non-newline character, with `$` matching
at the end of the string or just before a trailing newline. -/
def aclBody (cs : List Char) : Option (List Char) :=
  let v := cs.takeWhile (fun c => !(c = '\n'))
  if v = [] then none
  else if cs.drop v.length = [] ∨ cs.drop v.length = ['\n'] then some v
  else none

/-- `re.search(re_acl, s)` with `re_acl = [DS]:.+$`: leftmost `D:` or `S:`
followed by a `.+$` match.  As for `groupSearch`, the `:` after a failed
head cannot begin a match. -/
def aclSearch : List Char → Option (List Char)
  | [] => none
  | c :: rest =>
    if (c = 'D' ∨ c = 'S') ∧ rest.head? = some ':' then
      match aclBody rest.tail with
      | some p => some (c :: ':' :: p)
      | none => aclSearch rest
    else aclSearch rest

/-- Characters admitted by `[^:()]`. -/
def isNA (c : Char) : Bool := !(c = ':' || c = '(' || c = ')')

/-- `re.search(re_non_acl, s)` with `re_non_acl = [^:()]+$`: the first
position whose maximal run of non-`:()` characters reaches the end of the
string (a run stopped by a `:()` character can never satisfy `$`, even after
backtracking, since `\n` is itself a run character). -/
def nonAclSearch : List Char → Option (List Char)
  | [] => none
  | c :: rest =>
    if isNA c then
      let v := (c :: rest).takeWhile isNA
      if (c :: rest).drop v.length = [] then some v else nonAclSearch rest
    else nonAclSearch rest

/-- `re.match(re_type, part)` with `re_type = ^[DOGS]`, returning the
matched leading letter. -/
def matchType : List Char → Option Char
  | c :: _ => if c = 'D' ∨ c = 'O' ∨ c = 'G' ∨ c = 'S' then some c else none
  | [] => none

/-! ### Lexicographic string order and Python `list.sort()` -/

/-- Python 2 byte-string comparison: lexicographic on character ordinals. -/
def charListLe : List Char → List Char → Bool
  | [], _ => true
  | _ :: _, [] => false
  | a :: as, b :: bs =>
    if a.toNat < b.toNat then true
    else if b.toNat < a.toNat then false
    else charListLe as bs

/-- Lexicographic `≤` on strings, as Python compares them. -/
def strLe (a b : String) : Bool := charListLe a.data b.data

/-- The propositional form of `strLe`, used to state sortedness. -/
def strLeP (a b : String) : Prop := strLe a b = true

/-- Insert a string into a sorted list, keeping it sorted. -/
def insertSorted (x : String) : List String → List String
  | [] => [x]
  | y :: ys => if strLe x y then x :: y :: ys else y :: insertSorted x ys

/-- `list.sort()` on a list of strings: ascending lexicographic order.
Equal strings are indistinguishable, so any stable comparison sort produces
this insertion sort's output. -/
def sortStrings : List String → List String
  | [] => []
  | x :: xs => insertSorted x (sortStrings xs)

/-! ### The entry parser `ACE.__init__` -/

/-- One lookup/append step of the flag and permission loops:
`LOCAL_ACCESS[code]` raises `KeyError` when `code` is absent, and the
`else` branch (appending the raw code) runs only when the stored value is
falsy. -/
def resolveE (t : Table) (code : String) : Except PyErr String :=
  match dget t code with
  | none => .error (.keyError code)
  | some v => .ok (if v = "" then code else v)

/-- The resolution the loops would perform were the lookup total: table
value when present and truthy, else the raw code.  `resolveE` agrees with
it whenever it succeeds. -/
def resolveTotal (t : Table) (code : String) : String :=
  match dget t code with
  | some v => if v = "" then code else v
  | none => code

/-- A Python `for` loop appending translated codes: the first raised
exception aborts the whole constructor. -/
def mapME (f : String → Except PyErr String) : List String → Except PyErr (List String)
  | [] => .ok []
  | x :: xs =>
    match f x with
    | .error e => .error e
    | .ok y =>
      match mapME f xs with
      | .error e => .error e
      | .ok ys => .ok (y :: ys)

/-- Python truthiness of an optional string (`None` and `''` are falsy). -/
def truthy : Option String → Bool
  | some s => !(s = "")
  | none => false

/-- `ACE.__init__(ace_string, access_constants)`: split on `;`, demand six
fields, translate type, flags and permissions against the supplied table
(`d[k]` raising `KeyError` on absent codes), sort the permissions, store the
GUID fields verbatim, and resolve the trustee through
`TRUSTEE[f5]` (raising on absent codes) / `TranslateSid` / the literal
fallback. -/
def parseACE (resolver : String → Option String) (t : Table) (s : String) :
    Except PyErr ACERes :=
  let fields := splitSemi s.data
  if fields.length ≠ 6 then .error .invalidAceString
  else
    match fields with
    | [f0, f1, f2, f3, f4, f5] =>
      match resolveE t (String.mk f0) with
      | .error e => .error e
      | .ok aceType =>
        match mapME (resolveE t) (findConsts f1) with
        | .error e => .error e
        | .ok flags =>
          match mapME (resolveE t) (findConsts f2) with
          | .error e => .error e
          | .ok permsRaw =>
            match dget TRUSTEE (String.mk f5) with
            | none => .error (.keyError (String.mk f5))
            | some v =>
              let t0 : Option String := if v = "" then none else some v
              let t1 : Option String :=
                if truthy t0 then t0 else resolver (String.mk f5)
              let trustee :=
                match t1 with
                | some x => if x = "" then "Unknown or invalid SID." else x
                | none => "Unknown or invalid SID."
              .ok ⟨s, aceType, flags, sortStrings permsRaw,
                   String.mk f3, String.mk f4, trustee⟩
    | _ => .error .invalidAceString

/-! ### The descriptor parser `SDDL.__init__` -/

/-- Owner/group account resolution: trustee-table membership test, else
`TranslateSid`, with the falsy-guarded fallback literal `Unknown`. -/
def accountFor (resolver : String → Option String) (sid : String) : String :=
  let acct := if (dget TRUSTEE sid).isSome then dget TRUSTEE sid else resolver sid
  match acct with
  | some a => if a = "" then "Unknown" else a
  | none => "Unknown"

/-- The `for perms in re.findall(re_perms, part)` loop: each entry substring
is parsed and appended, and the first exception aborts the call. -/
def parseEntries (resolver : String → Option String) (t : Table) :
    List String → Except PyErr (List ACERes)
  | [] => .ok []
  | e :: es =>
    match parseACE resolver t e with
    | .error err => .error err
    | .ok a =>
      match parseEntries resolver t es with
      | .error err => .error err
      | .ok l => .ok (a :: l)

/-- One iteration of the loop over the owner, group and ACL matches.  A
missing match is skipped; otherwise the part's leading letter is classified
(`.group()` on a failed `re.match` raises `AttributeError`), the `D`/`S`
branch parses every parenthesised entry with the (possibly service-mutated)
table, and the `G`/`O` branches extract and resolve the trailing SID. -/
def procPart (resolver : String → Option String) (t : Table) (st : SDDLRes)
    (part : Option (List Char)) : Except PyErr SDDLRes :=
  match part with
  | none => .ok st
  | some p =>
    match matchType p with
    | none => .error .attributeError
    | some c =>
      if c = 'D' ∨ c = 'S' then
        match dget SDDL_TYPE (String.mk [c]) with
        | none => .error .invalidSddlType
        | some ty =>
          match parseEntries resolver t (findPerms p) with
          | .error e => .error e
          | .ok entries => .ok { st with sddl_type := some ty, acl := st.acl ++ entries }
      else if c = 'G' then
        match nonAclSearch p with
        | none => .error .attributeError
        | some sid =>
          .ok { st with group_sid := some (String.mk sid),
                        group_account := some (accountFor resolver (String.mk sid)) }
      else if c = 'O' then
        match nonAclSearch p with
        | none => .error .attributeError
        | some sid =>
          .ok { st with owner_sid := some (String.mk sid),
                        owner_account := some (accountFor resolver (String.mk sid)) }
      else .error .invalidSddlString

/-- `SDDL.__init__(sddl_string, target)`.  The three segment searches run on
the whole string; when `target == 'service'` the thirteen assignments mutate
the module-global `ACCESS` (aliased by `self.ACCESS`), so the function takes
the global table's current value and returns its value after the call,
alongside the parse outcome.  The matches are then processed in owner,
group, ACL order, the first exception aborting the call (the mutation
persists regardless). -/
def parseSDDL (resolver : String → Option String) (access : Table) (s : String)
    (target : Option String) : Table × Except PyErr SDDLRes :=
  let t := if target = some "service" then serviceOverride access else access
  let res :=
    match procPart resolver t emptyRes (ownerSearch s.data) with
    | .error e => .error e
    | .ok st1 =>
      match procPart resolver t st1 (groupSearch s.data) with
      | .error e => .error e
      | .ok st2 => procPart resolver t st2 (aclSearch s.data)
  (t, res)

/-- Consecutive two-character chunks of a character list, the unpaired
trailing character (if any) dropped. -/
def pairUp : List Char → List String
  | a :: b :: rest => String.mk [a, b] :: pairUp rest
  | _ => []

/-- `m` occurs in the list at a position from which the two characters
following the occurrence match `[DOS]:`; this is what `re_group` finding
the match `m` guarantees about its surroundings. -/
def afterMatchDOS (m : List Char) : List Char → Bool
  | [] => false
  | c :: rest =>
    (((c :: rest).take m.length == m) && lookDOS ((c :: rest).drop m.length))
      || afterMatchDOS m rest

instance {ε α : Type} [DecidableEq ε] [DecidableEq α] : DecidableEq (Except ε α) :=
  fun x y =>
    match x, y with
    | .error a, .error b =>
      if h : a = b then .isTrue (by rw [h]) else .isFalse (fun hc => h (Except.error.inj hc))
    | .ok a, .ok b =>
      if h : a = b then .isTrue (by rw [h]) else .isFalse (fun hc => h (Except.ok.inj hc))
    | .error _, .ok _ => .isFalse Except.noConfusion
    | .ok _, .error _ => .isFalse Except.noConfusion

/-! ### Claim theorems -/

/-- Claim C1: the claim states that a `target="service"` parse uses a
service-specific table scoped to that one call and leaves the shared
access/flag table unchanged for later parses.  The code violates this:
`self.ACCESS = ACCESS` aliases the module-global dictionary and the
thirteen assignments mutate it in place, so the parse call returns a
changed global table and a subsequent no-target parse of the same
descriptor resolves `RP` to `Start` instead of `DS_READ_PROP`. -/
theorem service_override_mutates_shared_table :
    (parseSDDL noResolver ACCESS "D:(A;;RP;;;BU)" (some "service")).1 ≠ ACCESS ∧
    (parseSDDL noResolver ACCESS "D:(A;;RP;;;BU)" none).2 =
      .ok ⟨some "DACL",
           [⟨"A;;RP;;;BU", "ACCESS_ALLOWED", [], ["DS_READ_PROP"], "", "", "Users"⟩],
           none, none, none, none⟩ ∧
    (parseSDDL noResolver
        ((parseSDDL noResolver ACCESS "D:(A;;RP;;;BU)" (some "service")).1)
        "D:(A;;RP;;;BU)" none).2 =
      .ok ⟨some "DACL",
           [⟨"A;;RP;;;BU", "ACCESS_ALLOWED", [], ["Start"], "", "", "Users"⟩],
           none, none, none, none⟩ := by
  refine ⟨?_, by decide, by decide⟩
  decide

/-- Claim C2: the claim states that entry strings with unrecognized
entry-type, flag, or permission codes parse without error, keeping the raw
code.  The code instead evaluates `LOCAL_ACCESS[code]`, which raises
`KeyError` for an absent key, at all three sites; the raw-code `else`
branches are unreachable for absent keys. -/
theorem unknown_code_raises_key_error :
    dget ACCESS "ZZ" = none ∧ dget ACCESS "QQ" = none ∧
    parseACE noResolver ACCESS "ZZ;;;;;BU" = .error (.keyError "ZZ") ∧
    parseACE noResolver ACCESS "A;QQ;;;;BU" = .error (.keyError "QQ") ∧
    parseACE noResolver ACCESS "A;;QQ;;;BU" = .error (.keyError "QQ") := by
  decide

/-- Claim C3: the claim states that trustee resolution never raises and
falls back to `"Unknown or invalid SID."` for an ACE trustee absent from
the table when the external resolver finds nothing.  The owner and group
sites do follow the chain (membership test, resolver, `"Unknown"`), but the
ACE site evaluates `TRUSTEE[fields[5]]`, which raises `KeyError` for a code
absent from the trustee table, before the resolver or fallback is ever
consulted. -/
theorem ace_trustee_lookup_raises_key_error :
    dget TRUSTEE "XX" = none ∧
    parseACE noResolver ACCESS "A;;;;;XX" = .error (.keyError "XX") ∧
    parseSDDL noResolver ACCESS "O:XXD:" none =
      (ACCESS, .ok ⟨none, [], some "XX", some "Unknown", none, none⟩) ∧
    parseSDDL noResolver ACCESS "G:XXD:" none =
      (ACCESS, .ok ⟨none, [], none, none, some "XX", some "Unknown"⟩) := by
  decide

/-- Claim C4: the claim (and the module's own docstring) states that
`"D:(A;;CCLCSWLOCRRC;;;AU)"` parses to one `ACCESS_ALLOWED` entry.  The
generic `ACCESS` table has no entry for `CR`, and the permission loop
evaluates `LOCAL_ACCESS['CR']`, so the parse raises `KeyError` instead of
succeeding. -/
theorem docstring_example_raises_key_error :
    dget ACCESS "CR" = none ∧
    parseSDDL noResolver ACCESS "D:(A;;CCLCSWLOCRRC;;;AU)" none =
      (ACCESS, .error (.keyError "CR")) := by
  decide

/-- Claim C5: the claim (and the class docstring) states that an input with
no owner, group or ACL segment fails with the invalid-string error.  The
code's `raise InvalidSddlStringError` sits inside the loop over matches and
is unreachable when every search returns `None`: the parse returns silently
with every field unset.  (`re_valid_string` is compiled but never used.) -/
theorem no_segments_returns_silently :
    ownerSearch "XYZ".data = none ∧ groupSearch "XYZ".data = none ∧
    aclSearch "XYZ".data = none ∧
    parseSDDL noResolver ACCESS "XYZ" none = (ACCESS, .ok emptyRes) ∧
    parseSDDL noResolver ACCESS "" none = (ACCESS, .ok emptyRes) := by
  decide

/-- Claim C8: with `target="service"` the thirteen service assignments are
in force for the call, and the entry `(A;;RP;;;BU)` resolves its permission
code `RP` to `Start` rather than the generic `DS_READ_PROP`. -/
theorem service_entry_resolves_rp_to_start :
    svcPairs.length = 13 ∧
    (svcPairs.all fun p => dget (serviceOverride ACCESS) p.1 == some p.2) = true ∧
    dget ACCESS "RP" = some "DS_READ_PROP" ∧
    dget (serviceOverride ACCESS) "RP" = some "Start" ∧
    findPerms "(A;;RP;;;BU)".data = ["A;;RP;;;BU"] ∧
    parseACE noResolver (serviceOverride ACCESS) "A;;RP;;;BU" =
      .ok ⟨"A;;RP;;;BU", "ACCESS_ALLOWED", [], ["Start"], "", "", "Users"⟩ ∧
    (parseSDDL noResolver ACCESS "D:(A;;RP;;;BU)" (some "service")).2 =
      .ok ⟨some "DACL",
           [⟨"A;;RP;;;BU", "ACCESS_ALLOWED", [], ["Start"], "", "", "Users"⟩],
           none, none, none, none⟩ := by
  decide

/-- Claim C6: for every entry string that does not split on `;` into exactly
six fields, `ACE.__init__` raises `InvalidAceStringError`. -/
theorem ace_field_count_checked (resolver : String → Option String) (t : Table)
    (s : String) (h : (splitSemi s.data).length ≠ 6) :
    parseACE resolver t s = .error .invalidAceString := by
  simp only [parseACE]
  rw [if_pos h]

/-- Witness for C6 at the spec's Example 3: `A;;RC;;;BU;EXTRA` splits into
seven fields and is rejected. -/
theorem ace_field_count_checked_witness :
    (splitSemi "A;;RC;;;BU;EXTRA".data).length ≠ 6 ∧
    parseACE noResolver ACCESS "A;;RC;;;BU;EXTRA" = .error .invalidAceString :=
  ⟨by decide, ace_field_count_checked noResolver ACCESS "A;;RC;;;BU;EXTRA" (by decide)⟩

/-- Claim C10: on a field of word characters the `(\w\w)` tokenizer emits
exactly the consecutive pairs, silently dropping an unpaired trailing
character, and the entry `A;;GAX;;;BU` therefore parses with the `X`
neither erroring nor passed through: its permissions are just
`GENERIC_ALL`. -/
theorem tokenizer_drops_unpaired_trailing_char :
    (∀ cs : List Char, (∀ c ∈ cs, isWordChar c = true) → findConsts cs = pairUp cs) ∧
    findConsts ['G', 'A', 'X'] = ["GA"] ∧
    parseACE noResolver ACCESS "A;;GAX;;;BU" =
      .ok ⟨"A;;GAX;;;BU", "ACCESS_ALLOWED", [], ["GENERIC_ALL"], "", "", "Users"⟩ := by
  refine ⟨?_, by decide, by decide⟩
  intro cs h
  induction cs using findConsts.induct with
  | case1 a b rest hw ih =>
    simp only [findConsts, pairUp, hw, if_true]
    rw [ih (fun c hc => h c (by simp [hc]))]
  | case2 a b rest hw ih =>
    exact absurd (by simp [h a (by simp), h b (by simp)]) hw
  | case3 cs hne =>
    match cs, hne with
    | [], _ => rfl
    | [a], _ => rfl
    | a :: b :: rest, hne => exact (hne a b rest rfl).elim

/-- Witness for C10's universal part at the odd-length field `GAX`. -/
theorem tokenizer_drops_unpaired_trailing_char_witness :
    findConsts ['G', 'A', 'X'] = pairUp ['G', 'A', 'X'] :=
  tokenizer_drops_unpaired_trailing_char.1 ['G', 'A', 'X'] (by decide)

/-! ### Order lemmas for the permission sort -/

theorem charListLe_total : ∀ a b : List Char, charListLe a b = true ∨ charListLe b a = true := by
  intro a
  induction a with
  | nil => intro b; left; rfl
  | cons x xs ih =>
    intro b
    cases b with
    | nil => right; rfl
    | cons y ys =>
      simp only [charListLe]
      rcases Nat.lt_trichotomy x.toNat y.toNat with h | h | h
      · left; rw [if_pos h]
      · rw [if_neg (by omega), if_neg (by omega), if_neg (by omega), if_neg (by omega)]
        exact ih ys
      · right; rw [if_pos h]

theorem charListLe_trans :
    ∀ a b c : List Char, charListLe a b = true → charListLe b c = true →
      charListLe a c = true := by
  intro a
  induction a with
  | nil => intro b c _ _; rfl
  | cons x xs ih =>
    intro b c hab hbc
    cases b with
    | nil => simp [charListLe] at hab
    | cons y ys =>
      cases c with
      | nil => simp [charListLe] at hbc
      | cons z zs =>
        simp only [charListLe] at hab hbc ⊢
        split_ifs at hab hbc ⊢ <;>
          first
          | rfl
          | omega
          | exact ih ys zs hab hbc

theorem strLe_total (a b : String) : strLe a b = true ∨ strLe b a = true :=
  charListLe_total a.data b.data

theorem strLe_trans {a b c : String} (hab : strLe a b = true) (hbc : strLe b c = true) :
    strLe a c = true :=
  charListLe_trans a.data b.data c.data hab hbc

theorem mem_insertSorted {x z : String} :
    ∀ {l : List String}, z ∈ insertSorted x l → z = x ∨ z ∈ l := by
  intro l
  induction l with
  | nil => intro h; simp only [insertSorted] at h; exact Or.inl (List.mem_singleton.mp h)
  | cons y ys ih =>
    intro h
    simp only [insertSorted] at h
    split at h
    · rcases List.mem_cons.mp h with rfl | h2
      · exact Or.inl rfl
      · exact Or.inr h2
    · rcases List.mem_cons.mp h with rfl | h2
      · exact Or.inr (List.mem_cons_self _ _)
      · rcases ih h2 with rfl | h3
        · exact Or.inl rfl
        · exact Or.inr (List.mem_cons_of_mem _ h3)

theorem sorted_insertSorted (x : String) :
    ∀ {l : List String}, l.Sorted strLeP → (insertSorted x l).Sorted strLeP := by
  intro l
  induction l with
  | nil => intro _; simp [insertSorted, strLeP]
  | cons y ys ih =>
    intro hs
    rw [List.sorted_cons] at hs
    simp only [insertSorted]
    by_cases hxy : strLe x y = true
    · rw [if_pos hxy, List.sorted_cons]
      refine ⟨?_, ?_⟩
      · intro b hb
        rcases List.mem_cons.mp hb with rfl | hb2
        · exact hxy
        · exact strLe_trans hxy (hs.1 b hb2)
      · rw [List.sorted_cons]; exact hs
    · rw [if_neg hxy, List.sorted_cons]
      refine ⟨?_, ih hs.2⟩
      intro b hb
      rcases mem_insertSorted hb with heq | hb2
      · rw [heq]
        rcases strLe_total x y with h | h
        · exact absurd h hxy
        · exact h
      · exact hs.1 b hb2

theorem sorted_sortStrings : ∀ l : List String, (sortStrings l).Sorted strLeP := by
  intro l
  induction l with
  | nil => simp [sortStrings]
  | cons x xs ih => exact sorted_insertSorted x ih

/-- When a translation loop finishes without an exception, its output is the
pointwise total resolution of its input codes, in input order. -/
theorem mapME_ok_map {f : String → Except PyErr String} {g : String → String}
    (hfg : ∀ x y, f x = .ok y → y = g x) :
    ∀ {xs ys : List String}, mapME f xs = .ok ys → ys = xs.map g := by
  intro xs
  induction xs with
  | nil =>
    intro ys h
    simp only [mapME] at h
    rw [← Except.ok.inj h]
    rfl
  | cons x xs ih =>
    intro ys h
    simp only [mapME] at h
    split at h
    · exact Except.noConfusion h
    · rename_i y hy
      split at h
      · exact Except.noConfusion h
      · rename_i ys0 hys0
        rw [← Except.ok.inj h, List.map_cons, hfg x y hy, ih hys0]

theorem resolveE_ok {t : Table} {code y : String} (h : resolveE t code = .ok y) :
    y = resolveTotal t code := by
  simp only [resolveE] at h
  unfold resolveTotal
  split at h
  · exact Except.noConfusion h
  · rename_i v hv
    rw [hv]
    exact (Except.ok.inj h).symm

/-- Claim C7 (amended): whenever `ACE.__init__` completes without raising,
its permission list is sorted ascending in the lexicographic string order
and its flag list is the resolution of the flag-field tokens in source
encounter order. -/
theorem ace_success_perms_sorted_flags_in_order
    (resolver : String → Option String) (t : Table) (s : String) (a : ACERes)
    (h : parseACE resolver t s = .ok a) :
    a.perms.Sorted strLeP ∧
    a.flags = (findConsts ((splitSemi s.data).getD 1 [])).map (resolveTotal t) := by
  simp only [parseACE] at h
  split at h
  · exact Except.noConfusion h
  · split at h
    · rename_i f0 f1 f2 f3 f4 f5 heq
      split at h
      · exact Except.noConfusion h
      · rename_i aceType hT
        split at h
        · exact Except.noConfusion h
        · rename_i flags hF
          split at h
          · exact Except.noConfusion h
          · rename_i permsRaw hP
            split at h
            · exact Except.noConfusion h
            · rename_i v hv
              rw [← Except.ok.inj h]
              refine ⟨sorted_sortStrings permsRaw, ?_⟩
              rw [heq]
              simpa using mapME_ok_map (fun x y hy => resolveE_ok hy) hF
    · exact Except.noConfusion h

/-- Counterexample to C7 as stated: `A;;ZZ;;;BU` is a well-formed six-field
entry string but produces no entry at all — the permission code `ZZ` is
absent from the table, so the constructor raises `KeyError`. -/
theorem ace_success_perms_sorted_cex :
    (splitSemi "A;;ZZ;;;BU".data).length = 6 ∧
    parseACE noResolver ACCESS "A;;ZZ;;;BU" = .error (.keyError "ZZ") := by
  decide

/-- Witness for the amended C7 at the entry `A;;CCRP;;;AU`: `CC` and `RP`
arrive unsorted by resolved name and come out sorted. -/
theorem ace_success_perms_sorted_flags_in_order_witness :
    (ACERes.mk "A;;CCRP;;;AU" "ACCESS_ALLOWED" [] ["DS_CREATE_CHILD", "DS_READ_PROP"]
        "" "" "Authenticated Users").perms.Sorted strLeP ∧
    (ACERes.mk "A;;CCRP;;;AU" "ACCESS_ALLOWED" [] ["DS_CREATE_CHILD", "DS_READ_PROP"]
        "" "" "Authenticated Users").flags =
      (findConsts ((splitSemi "A;;CCRP;;;AU".data).getD 1 [])).map (resolveTotal ACCESS) :=
  ace_success_perms_sorted_flags_in_order noResolver ACCESS "A;;CCRP;;;AU"
    (ACERes.mk "A;;CCRP;;;AU" "ACCESS_ALLOWED" [] ["DS_CREATE_CHILD", "DS_READ_PROP"]
        "" "" "Authenticated Users")
    (by decide)

/-! ### Segment-recognition lemmas (claim C9) -/

theorem lookDGS_colon : ∀ cs : List Char, lookDGS cs = true → ':' ∈ cs := by
  intro cs h
  match cs, h with
  | d :: c :: rest, h =>
    simp only [lookDGS, Bool.and_eq_true, decide_eq_true_eq] at h
    simp [h.2]

theorem lookDOS_colon : ∀ cs : List Char, lookDOS cs = true → ':' ∈ cs := by
  intro cs h
  match cs, h with
  | d :: c :: rest, h =>
    simp only [lookDOS, Bool.and_eq_true, decide_eq_true_eq] at h
    simp [h.2]

theorem ownerBody_spec : ∀ (cs p : List Char), ownerBody cs = some p →
    cs.take p.length = p ∧ lookDGS (cs.drop p.length) = true := by
  intro cs
  induction cs with
  | nil => intro p h; simp [ownerBody] at h
  | cons c rest ih =>
    intro p h
    simp only [ownerBody] at h
    split at h
    · exact Option.noConfusion h
    · split at h
      · rename_i q hq
        rw [← Option.some.inj h]
        have hih := ih q hq
        simp only [List.length_cons, List.take_succ_cons, List.drop_succ_cons]
        exact ⟨by rw [hih.1], hih.2⟩
      · split at h
        · rename_i hlook
          rw [← Option.some.inj h]
          simpa using hlook
        · exact Option.noConfusion h

theorem groupBody_spec : ∀ (cs p : List Char), groupBody cs = some p →
    cs.take p.length = p ∧ lookDOS (cs.drop p.length) = true := by
  intro cs
  induction cs with
  | nil => intro p h; simp [groupBody] at h
  | cons c rest ih =>
    intro p h
    simp only [groupBody] at h
    split at h
    · exact Option.noConfusion h
    · split at h
      · rename_i q hq
        rw [← Option.some.inj h]
        have hih := ih q hq
        simp only [List.length_cons, List.take_succ_cons, List.drop_succ_cons]
        exact ⟨by rw [hih.1], hih.2⟩
      · split at h
        · rename_i hlook
          rw [← Option.some.inj h]
          simpa using hlook
        · exact Option.noConfusion h

theorem ownerSearch_spec : ∀ (cs m : List Char), ownerSearch cs = some m →
    cs.take m.length = m ∧ lookDGS (cs.drop m.length) = true := by
  intro cs m h
  unfold ownerSearch at h
  split at h
  · rename_i rest
    cases hb : ownerBody rest with
    | none => rw [hb] at h; simp at h
    | some p =>
      rw [hb] at h
      have hm : 'O' :: ':' :: p = m := by simpa using h
      rw [← hm]
      have hspec := ownerBody_spec rest p hb
      simp only [List.length_cons, List.take_succ_cons, List.drop_succ_cons]
      exact ⟨by rw [hspec.1], hspec.2⟩
  · exact Option.noConfusion h

theorem groupSearch_spec : ∀ (cs m : List Char), groupSearch cs = some m →
    afterMatchDOS m cs = true := by
  intro cs
  induction cs with
  | nil => intro m h; simp [groupSearch] at h
  | cons c rest ih =>
    intro m h
    simp only [groupSearch] at h
    split at h
    · rename_i hcond
      split at h
      · rename_i p hp
        rw [← Option.some.inj h]
        obtain ⟨hc, hh⟩ := hcond
        subst hc
        cases rest with
        | nil => simp at hh
        | cons r0 rest2 =>
          have hr0 : r0 = ':' := by simpa using hh
          subst hr0
          have hspec := groupBody_spec rest2 p (by simpa using hp)
          simp only [afterMatchDOS, List.length_cons, List.take_succ_cons,
            List.drop_succ_cons, hspec.1, hspec.2, beq_self_eq_true,
            Bool.and_true, Bool.true_or, Bool.true_and]
      · have := ih m h
        simp [afterMatchDOS, this]
    · have := ih m h
      simp [afterMatchDOS, this]

theorem ownerBody_none : ∀ cs : List Char, (∀ c ∈ cs, c ≠ ':') →
    ownerBody cs = none := by
  intro cs
  induction cs with
  | nil => intro _; rfl
  | cons c rest ih =>
    intro h
    have hrest := ih (fun x hx => h x (List.mem_cons_of_mem _ hx))
    have hl : lookDGS rest = false := by
      cases hlook : lookDGS rest
      · rfl
      · exact absurd rfl (h ':' (List.mem_cons_of_mem _ (lookDGS_colon rest hlook)))
    simp only [ownerBody, hrest, hl]
    split <;> rfl

theorem groupSearch_none : ∀ cs : List Char, (∀ c ∈ cs, c ≠ ':') →
    groupSearch cs = none := by
  intro cs
  induction cs with
  | nil => intro _; rfl
  | cons c rest ih =>
    intro h
    simp only [groupSearch]
    split
    · rename_i hcond
      exfalso
      obtain ⟨_, hh⟩ := hcond
      cases rest with
      | nil => simp at hh
      | cons r0 rest2 =>
        exact h r0 (List.mem_cons_of_mem _ (List.mem_cons_self _ _)) (by simpa using hh)
    · exact ih (fun x hx => h x (List.mem_cons_of_mem _ hx))

theorem aclSearch_none : ∀ cs : List Char, (∀ c ∈ cs, c ≠ ':') →
    aclSearch cs = none := by
  intro cs
  induction cs with
  | nil => intro _; rfl
  | cons c rest ih =>
    intro h
    simp only [aclSearch]
    split
    · rename_i hcond
      exfalso
      obtain ⟨_, hh⟩ := hcond
      cases rest with
      | nil => simp at hh
      | cons r0 rest2 =>
        exact h r0 (List.mem_cons_of_mem _ (List.mem_cons_self _ _)) (by simpa using hh)
    · exact ih (fun x hx => h x (List.mem_cons_of_mem _ hx))

/-- A string that is nothing but an owner section (`O:` and a code free of
`:()`) yields no segment match at all, and the parse returns silently with
every field unset. -/
theorem owner_only_parse (resolver : String → Option String) (t : List Char)
    (hne : t ≠ []) (h : ∀ c ∈ t, ¬(c = ':' ∨ c = '(' ∨ c = ')')) :
    parseSDDL resolver ACCESS (String.mk ('O' :: ':' :: t)) none =
      (ACCESS, .ok emptyRes) := by
  have hcol : ∀ c ∈ t, c ≠ ':' := fun c hc he => h c hc (Or.inl he)
  have hdata : (String.mk ('O' :: ':' :: t)).data = 'O' :: ':' :: t := rfl
  have ho : ownerSearch ('O' :: ':' :: t) = none := by
    show Option.map (fun p => 'O' :: ':' :: p) (ownerBody t) = none
    rw [ownerBody_none t hcol]
    rfl
  have hg : groupSearch ('O' :: ':' :: t) = none := by
    simp only [groupSearch]
    rw [if_neg (by simp)]
    rw [if_neg (by simp)]
    exact groupSearch_none t hcol
  have ha : aclSearch ('O' :: ':' :: t) = none := by
    simp only [aclSearch]
    rw [if_neg (by simp)]
    rw [if_neg (by simp)]
    exact aclSearch_none t hcol
  simp only [parseSDDL, hdata, ho, hg, ha]
  rfl

/-- Claim C9: an owner segment is recognised only when the matched text is
immediately followed by `[DGS]:` (and a group segment only when followed by
`[DOS]:`), so an input that is solely an owner section — such as `O:BA` —
matches nothing: the parse raises no error and leaves every field,
including `owner_sid` and `owner_account`, unset. -/
theorem owner_requires_following_segment :
    (∀ cs m : List Char, ownerSearch cs = some m →
       cs.take m.length = m ∧ lookDGS (cs.drop m.length) = true) ∧
    (∀ cs m : List Char, groupSearch cs = some m → afterMatchDOS m cs = true) ∧
    (∀ (resolver : String → Option String) (t : List Char), t ≠ [] →
       (∀ c ∈ t, ¬(c = ':' ∨ c = '(' ∨ c = ')')) →
       parseSDDL resolver ACCESS (String.mk ('O' :: ':' :: t)) none =
         (ACCESS, .ok emptyRes)) :=
  ⟨ownerSearch_spec, groupSearch_spec, owner_only_parse⟩

/-- Witness for C9: the owner match in `O:BAG:` is followed by `G:`, the
group match in `xG:BAD:x` is followed by `D:`, and the bare owner string
`O:BA` parses to the untouched empty descriptor. -/
theorem owner_requires_following_segment_witness :
    ("O:BAG:".data.take ("O:BA".data.length) = "O:BA".data ∧
       lookDGS ("O:BAG:".data.drop ("O:BA".data.length)) = true) ∧
    afterMatchDOS "G:BA".data "xG:BAD:x".data = true ∧
    parseSDDL noResolver ACCESS (String.mk ('O' :: ':' :: ['B', 'A'])) none =
      (ACCESS, .ok emptyRes) :=
  ⟨owner_requires_following_segment.1 "O:BAG:".data "O:BA".data (by decide),
   owner_requires_following_segment.2.1 "xG:BAD:x".data "G:BA".data (by decide),
   owner_requires_following_segment.2.2 noResolver ['B', 'A'] (by decide) (by decide)⟩

end Pysddl
